import Mathlib

/-!
Verification development for the unlurker web backend.

The backend surfaces "currently active" discussion threads: it scrapes the
front-page listing for second-chance promotion signals, adjusts effective
root timestamps, classifies tree nodes as active/inert, and renders a
flattened, depth-annotated response.

Shallow embedding conventions:
* Unix timestamps are `Int` seconds; instants compared with `time.After`
  and all durations are `Int` nanoseconds (Go `time.Duration` units).
  Go's `int64` time arithmetic is modelled with unbounded integers; the
  overflow/saturation boundary of `time.Sub` (about 292 years) is far
  outside the domain of front-page ages and is not modelled.  The explicit
  range errors of `strconv.ParseInt`/`strconv.Atoi` ARE modelled, since
  they abort the scrape visibly.
* Go maps built by id are association lists; ids on the front page are
  pairwise distinct, so first-match lookup agrees with Go's last-write-wins
  map assignment wherever a theorem needs it (stated as a `Nodup`
  hypothesis where relevant).
* The HTTP fetch is a parameter: `none` models a request/transport/non-200
  failure, `some frags` models a 200 body whose regex matches are `frags`.
-/

/-- Nanoseconds per second (Go `time.Second`). -/
def nsPerSecond : Int := 1000000000

/-- Go `time.Minute` in nanoseconds. -/
def minuteNs : Int := 60 * nsPerSecond

/-- Go `time.Hour` in nanoseconds. -/
def hourNs : Int := 60 * minuteNs

/-- 24 hours in nanoseconds (the `day`/`days` unit of `parseAge`). -/
def dayNs : Int := 24 * hourNs

/-- Convert a unix-seconds timestamp to an instant in nanoseconds
(`time.Unix(t, 0)` compared against nanosecond instants). -/
def unixToNs (t : Int) : Int := t * nsPerSecond

/-- Largest value accepted by `strconv.Atoi` / `strconv.ParseInt(_, 10, 64)`
on a digit-only string (math.MaxInt64). -/
def maxInt64 : Nat := 2 ^ 63 - 1

/-- An HN item as consumed by this backend (`hn.Item`): integer id, author
handle `By`, unix creation time, optional parent id, `dead`/`deleted`
flags.  The raw text payload is only ever passed through the formatting
collaborator, so it is not carried here. -/
structure Item where
  id : Nat
  By : String
  time : Int
  parent : Option Nat
  dead : Bool
  deleted : Bool
  deriving Repr, DecidableEq

/-- The parent→children grouping (`map[int]hn.ItemSet` after
`GroupByParent`); child lists are in the set's stored (ordered-by-id)
order. -/
abbrev Graph := List (Nat × List Item)

/-- Go map indexing `allByParent[item.ID]`: a missing key yields the empty
child list (range over a nil set iterates zero times). -/
def graphLookup (g : Graph) (id : Nat) : List Item :=
  (g.lookup id).getD []

/-- Whitespace characters matched by Go's regexp `\s` class
(`[\t\n\f\r ]`). -/
def isSpaceChar (c : Char) : Bool :=
  c = ' ' || c = '\t' || c = '\n' || c = '\x0c' || c = '\r'

/-- Numeric value of a digit string captured by `(\d+)` (digits are ASCII
`[0-9]`; leading zeros are allowed, as in `strconv.Atoi`). -/
def digitsToNat (ds : List Char) : Nat :=
  ds.foldl (fun acc c => 10 * acc + (c.toNat - '0'.toNat)) 0

/-- The `parseAge` helper of the front-page scraper.  It matches the age
text against `^\s*(\d+)\s+(hour|hours|minute|minutes|day|days)\s*$`
(`relativeAgeRegex`), converts the count with `strconv.Atoi` (which fails
past MaxInt64), and scales by the unit, returning a duration in
nanoseconds; any shape mismatch is the `unexpected age format` error,
modelled as `none`. -/
def parseAge (s : String) : Option Int :=
  let cs := s.data.dropWhile isSpaceChar
  let ds := cs.takeWhile Char.isDigit
  let afterDigits := cs.dropWhile Char.isDigit
  let sp := afterDigits.takeWhile isSpaceChar
  let afterSp := afterDigits.dropWhile isSpaceChar
  let unitChars := afterSp.takeWhile (fun c => !isSpaceChar c)
  let trailing := afterSp.dropWhile (fun c => !isSpaceChar c)
  let unit := String.mk unitChars
  if ds.isEmpty then none
  else if sp.isEmpty then none
  else if !trailing.all isSpaceChar then none
  else if unit = "minute" ∨ unit = "minutes" then
    if digitsToNat ds > maxInt64 then none else some (digitsToNat ds * minuteNs)
  else if unit = "hour" ∨ unit = "hours" then
    if digitsToNat ds > maxInt64 then none else some (digitsToNat ds * hourNs)
  else if unit = "day" ∨ unit = "days" then
    if digitsToNat ds > maxInt64 then none else some (digitsToNat ds * dayNs)
  else none

/-- One match of `frontPageAgeExtractor` against the listing body:
`match[1]` (the absolute unix timestamp, a digit string represented by its
numeric value), `match[2]` (the item id digit string, likewise), and
`match[3]` (the relative-age phrase preceding " ago"). -/
structure Fragment where
  ts : Nat
  id : Nat
  ageText : String
  deriving Repr, DecidableEq

/-- The per-match loop body of `fetchFrontPageTimesInner`: for each
fragment, `strconv.ParseInt` the absolute timestamp (range error past
MaxInt64), `strconv.Atoi` the id (same range), `parseAge` the phrase, and
record `now - age` (as unix seconds, `now.Add(-age).Unix()`) when the
drift `(now - t) - age` exceeds two hours, else the absolute timestamp
`ts`.  Any error aborts the whole batch (`none`). -/
def processFragments (now : Int) : List Fragment → Option (List (Nat × Int))
  | [] => some []
  | f :: rest =>
    if f.ts > maxInt64 then none
    else if f.id > maxInt64 then none
    else
      match parseAge f.ageText with
      | none => none
      | some age =>
        match processFragments now rest with
        | none => none
        | some m =>
          let diff := (now - unixToNs (f.ts : Int)) - age
          let v : Int :=
            if diff > 2 * hourNs then (now - age).fdiv nsPerSecond else (f.ts : Int)
          some ((f.id, v) :: m)

/-- The shared `fetchCacheEntry`: the id→unix-seconds mapping plus the
`time.Now()` at which it was stored. -/
structure FetchCacheEntry where
  data : List (Nat × Int)
  ts : Int
  deriving Repr, DecidableEq

/-- The body of `fetchFrontPageTimesInner` after the HTTP exchange:
`fetched = none` models a failed request/read or non-200 status (each
returns an error before touching the cache); on a successful body the
regex matches are processed and, only on full success, the result is
stored in the shared cache stamped with `time.Now()` (`sysNow`). -/
def fetchFrontPageTimesInner (now sysNow : Int) (fetched : Option (List Fragment))
    (cache : Option FetchCacheEntry) :
    Option (List (Nat × Int)) × Option FetchCacheEntry :=
  match fetched with
  | none => (none, cache)
  | some frags =>
    match processFragments now frags with
    | none => (none, cache)
    | some m => (some m, some ⟨m, sysNow⟩)

/-- The front-page time resolver `fetchFrontPageTimes`: if the shared cache
entry exists and `time.Since(entry.ts) < time.Minute`, return it verbatim;
otherwise run the (singleflight-wrapped) inner fetch.  The coalescing of
concurrent callers by `fetchGroup.Do` is a concurrency property outside
this sequential model; each call here performs the inner fetch directly. -/
def fetchFrontPageTimes (now sysNow : Int) (fetched : Option (List Fragment))
    (cache : Option FetchCacheEntry) :
    Option (List (Nat × Int)) × Option FetchCacheEntry :=
  match cache with
  | some entry =>
    if sysNow - entry.ts < minuteNs then (some entry.data, cache)
    else fetchFrontPageTimesInner now sysNow fetched cache
  | none => fetchFrontPageTimesInner now sysNow fetched cache

/-- The per-node freshness test (`isActive` in the tree writer, the `SELF`
mark of the spec): created strictly after the activity cutoff and neither
dead nor deleted. -/
def selfMark (item : Item) (activeAfterNs : Int) : Bool :=
  decide (unixToNs item.time > activeAfterNs) && !item.dead && !item.deleted

/-- The `findActiveChild` probe of the tree writer: scans the item's child
list in `allByParent` and reports whether any child is fresh (created
after the cutoff, not dead, not deleted). -/
def findActiveChild (item : Item) (allByParent : Graph) (activeAfterNs : Int) : Bool :=
  (graphLookup allByParent item.id).any fun child =>
    decide (unixToNs child.time > activeAfterNs) && !child.dead && !child.deleted

/-- Modelled from the spec: the "any active descendant" existence probe of
the activity classifier (`unl.BuildActiveMap` lives in the upstream
library, not in this repository) — true iff any direct or transitive
descendant in the graph has `SELF` set.  `fuel` bounds recursion depth;
the spec's ItemGraph is a tree, so any fuel at least the tree height is
exact. -/
def hasActiveDescendant (fuel : Nat) (item : Item) (g : Graph) (activeAfterNs : Int) : Bool :=
  match fuel with
  | 0 => false
  | n + 1 =>
    (graphLookup g item.id).any fun c =>
      selfMark c activeAfterNs || hasActiveDescendant n c g activeAfterNs

/-- Modelled from the spec: the `SELF` bit of the `unl.ActiveMap` bitset. -/
def activeMapSelf : Nat := 1

/-- Modelled from the spec: the `CHILD` bit of the `unl.ActiveMap` bitset
(the spec defines the mark as "a bitset over {SELF, CHILD}", so the two
bits are distinct). -/
def activeMapChild : Nat := 2

/-- Modelled from the spec: the classification `unl.BuildActiveMap`
computes per node — `SELF` iff the node itself is fresh, `CHILD` iff any
direct or transitive descendant is fresh. -/
def buildActiveMark (fuel : Nat) (item : Item) (g : Graph) (activeAfterNs : Int) : Nat :=
  (if selfMark item activeAfterNs then activeMapSelf else 0) |||
    (if hasActiveDescendant fuel item g activeAfterNs then activeMapChild else 0)

/-- Modelled from the spec: `unl.FlattenTree` (upstream library) — a
depth-first pre-order traversal from the root at depth 0, recursing into
the graph's child list in stored order.  `fuel` bounds recursion depth as
in `hasActiveDescendant`. -/
def flattenTree (fuel : Nat) (item : Item) (g : Graph) (depth : Nat) : List (Item × Nat) :=
  match fuel with
  | 0 => [(item, depth)]
  | n + 1 =>
    (item, depth) :: ((graphLookup g item.id).map fun c => flattenTree n c g (depth + 1)).flatten

/-- A kept root (`handleActiveRoot`): the item plus its effective unix
time. -/
structure HandleActiveRoot where
  item : Item
  time : Int
  deriving Repr, DecidableEq

/-- The root-building tail of `getActiveRoots` in the current handler:
the front-page resolver outcome is either a mapping (`some fpt`) or an
error (`none`, after which `frontPageTimes = nil` and the degraded flag is
set).  Each item's effective time is `frontPageTimes[item.ID]` when
present, else its own creation time, and the item is kept iff
`time.Unix(t, 0).After(agedAfter)`. -/
def getActiveRoots (fetchResult : Option (List (Nat × Int))) (items : List Item)
    (agedAfterNs : Int) : List HandleActiveRoot × Bool :=
  let frontPageTimes := fetchResult.getD []
  let secondChanceFailed := fetchResult.isNone
  (items.filterMap fun item =>
      let t := (frontPageTimes.lookup item.id).getD item.time
      if unixToNs t > agedAfterNs then some ⟨item, t⟩ else none,
    secondChanceFailed)

/-- The `sort.Slice` comparator of the earlier `getActiveRoots` revision:
`a` precedes `b` when its effective time is later, ties broken by higher
id. -/
def rootLess (a b : HandleActiveRoot) : Bool :=
  if a.time == b.time then decide (a.item.id > b.item.id) else decide (a.time > b.time)

/-- The ordering induced by the comparator: `a` may come no later than `b`
exactly when the comparator does not place `b` strictly first.  Any
comparison sort (Go's `sort.Slice` included) yields a permutation sorted
under this relation. -/
def RootLe (a b : HandleActiveRoot) : Prop := rootLess b a = false

instance : DecidableRel RootLe := fun a b => by
  unfold RootLe; infer_instance

/-- The `getActiveRoots` of the earlier revision that owns the sort: the
adjustment takes the front-page time only when it is later than the item's
own time, the kept roots are filtered by `agedAfter`, and the result is
sorted by the `rootLess` comparator. -/
def getActiveRootsV2 (fetchResult : Option (List (Nat × Int))) (items : List Item)
    (agedAfterNs : Int) : List HandleActiveRoot :=
  let fpt := fetchResult.getD []
  let kept := items.filterMap fun item =>
    let t :=
      match fpt.lookup item.id with
      | some updated => if updated > item.time then updated else item.time
      | none => item.time
    if unixToNs t > agedAfterNs then some (⟨item, t⟩ : HandleActiveRoot) else none
  List.insertionSort RootLe kept

/-- One row of the `/active` response (`handleActiveResponseItem`).  The
`Age` string is `PrettyFormatDuration(now.Sub(time.Unix(t, 0)))`; the
duration fed to that formatter is carried here as `AgeNs`. -/
structure ResponseItem where
  By : String
  Text : String
  AgeNs : Int
  ID : Nat
  Depth : Nat
  Active : Bool
  SecondChance : Bool
  deriving Repr, DecidableEq

/-- The per-root rendering loop of `handleActive`: flatten the root's
subtree, build the activity map, force the root's entry to
`ActiveMapChild` (a plain map assignment, modelled by shadowing the key),
then emit one response row per flattened node.  `fmt` is the
`formatText`/`PrettyFormatTitle` collaborator. -/
def buildRootItems (fmt : Item → String) (fuel : Nat) (root : HandleActiveRoot) (g : Graph)
    (activeAfterNs nowNs : Int) (user : Int) : List ResponseItem :=
  let flat := flattenTree fuel root.item g 0
  let activeMap : List (Nat × Nat) :=
    (root.item.id, activeMapChild) ::
      flat.map fun p => (p.1.id, buildActiveMark fuel p.1 g activeAfterNs)
  flat.map fun p =>
    let item := p.1
    let t := if item.id = root.item.id then root.time else item.time
    let secondChance := if item.id = root.item.id then decide (item.time ≠ root.time) else false
    let ae := (activeMap.lookup item.id).getD 0
    { By := if user = 1 then item.By else ""
      Text := if ae ≠ 0 then fmt item else ""
      AgeNs := nowNs - unixToNs t
      ID := item.id
      Depth := p.2
      Active := decide (ae &&& activeMapSelf > 0)
      SecondChance := secondChance }

/-- The `/active` response body (`handleActiveResponse`). -/
structure ActiveResponse where
  Items : List ResponseItem
  SecondChanceFailed : Bool
  deriving Repr, DecidableEq

/-- The `handleActive` pipeline after query parsing and after the
item-graph fetch (whose failure is fatal and yields no response): select
roots with the front-page outcome, then concatenate the per-root rows. -/
def handleActiveModel (fmt : Item → String) (fuel : Nat)
    (fetchResult : Option (List (Nat × Int))) (items : List Item) (g : Graph)
    (activeAfterNs nowNs agedAfterNs : Int) (user : Int) : ActiveResponse :=
  let s := getActiveRoots fetchResult items agedAfterNs
  { Items := (s.1.map fun r => buildRootItems fmt fuel r g activeAfterNs nowNs user).flatten
    SecondChanceFailed := s.2 }

/-- One row of the `/item/:id/tree` response
(`handleItemDescendantsResponse`). -/
structure DescItem where
  By : String
  Text : String
  Time : Int
  ID : Nat
  Depth : Nat
  deriving Repr, DecidableEq

/-- The `handleItemDescendants` rendering loop: flatten the item's subtree
and emit one row per node, suppressing `By` unless `user == 1`. -/
def handleItemDescendantsModel (fmt : Item → String) (fuel : Nat) (item : Item) (g : Graph)
    (user : Int) : List DescItem :=
  (flattenTree fuel item g 0).map fun p =>
    { By := if user = 1 then p.1.By else ""
      Text := fmt p.1
      Time := p.1.time
      ID := p.1.id
      Depth := p.2 }

/-- C1: for every extracted fragment with absolute timestamp `ts` and
parsed relative duration `age`, the effective time recorded for that
fragment's id in a successful scrape is `now - age` (unix seconds) when
the drift `(now - t) - age` exceeds 2 hours, and `ts` otherwise.  Front
page ids are pairwise distinct, stated as the `Nodup` hypothesis. -/
theorem processFragments_drift_correction (now : Int) (frags : List Fragment)
    (m : List (Nat × Int)) (f : Fragment) (age : Int)
    (hnd : (frags.map Fragment.id).Nodup)
    (hm : processFragments now frags = some m) (hf : f ∈ frags)
    (ha : parseAge f.ageText = some age) :
    m.lookup f.id =
      some (if (now - unixToNs (f.ts : Int)) - age > 2 * hourNs
            then (now - age).fdiv nsPerSecond else (f.ts : Int)) := by
  have key : ∀ (fr : List Fragment) (m' : List (Nat × Int)),
      (fr.map Fragment.id).Nodup → processFragments now fr = some m' → f ∈ fr →
      m'.lookup f.id =
        some (if (now - unixToNs (f.ts : Int)) - age > 2 * hourNs
              then (now - age).fdiv nsPerSecond else (f.ts : Int)) := by
    intro fr
    induction fr with
    | nil => intro m' _ _ hmem; cases hmem
    | cons g rest ih =>
      intro m' hnd' hm' hmem
      simp only [processFragments] at hm'
      by_cases h1 : g.ts > maxInt64
      · rw [if_pos h1] at hm'; exact absurd hm' (by simp)
      rw [if_neg h1] at hm'
      by_cases h2 : g.id > maxInt64
      · rw [if_pos h2] at hm'; exact absurd hm' (by simp)
      rw [if_neg h2] at hm'
      cases hpa : parseAge g.ageText with
      | none => rw [hpa] at hm'; exact absurd hm' (by simp)
      | some age' =>
        rw [hpa] at hm'
        cases hrest : processFragments now rest with
        | none => rw [hrest] at hm'; exact absurd hm' (by simp)
        | some mrest =>
          rw [hrest] at hm'
          injection hm' with hm'
          subst hm'
          rcases List.mem_cons.mp hmem with rfl | hmem'
          · rw [ha] at hpa
            injection hpa with hpa
            subst hpa
            simp [List.lookup]
          · have hgne : g.id ≠ f.id := by
              intro hcontra
              have : f.id ∈ rest.map Fragment.id := List.mem_map_of_mem _ hmem'
              exact (List.nodup_cons.mp hnd').1 (hcontra ▸ this)
            have : (f.id == g.id) = false := beq_eq_false_iff_ne.mpr (Ne.symm hgne)
            simp only [List.lookup, this]
            exact ih mrest (List.nodup_cons.mp hnd').2 hrest hmem'
  exact key frags m hnd hm hf

/-- C1 witness: a fragment 5 hours old by absolute timestamp with a
"30 minutes" relative phrase has drift 4.5 h > 2 h, so the recorded time
is `now - 30 minutes` in unix seconds. -/
def ex1Frag : Fragment := ⟨82000, 42, "30 minutes"⟩

/-- C1 witness statement: the drift-corrected entry for `ex1Frag`. -/
theorem processFragments_drift_correction_witness :
    ([((42 : Nat), (98200 : Int))].lookup ex1Frag.id) =
      some (if ((100000 * nsPerSecond) - unixToNs (ex1Frag.ts : Int)) - (1800 * nsPerSecond) >
              2 * hourNs
            then ((100000 * nsPerSecond) - 1800 * nsPerSecond).fdiv nsPerSecond
            else (ex1Frag.ts : Int)) :=
  processFragments_drift_correction (100000 * nsPerSecond) [ex1Frag]
    [((42 : Nat), (98200 : Int))] ex1Frag (1800 * nsPerSecond)
    (by decide) (by decide) (by decide) (by decide)

/-- C4: for every scraped document, if `parseAge` fails on any single
matched fragment, the whole scrape aborts — `processFragments` yields no
mapping at all, and the inner fetch returns the error with the shared
cache left exactly as it was (nothing partial is returned or cached). -/
theorem processFragments_fail_closed (now sysNow : Int) (cache : Option FetchCacheEntry)
    (frags : List Fragment) (f : Fragment) (hf : f ∈ frags)
    (ha : parseAge f.ageText = none) :
    processFragments now frags = none ∧
      fetchFrontPageTimesInner now sysNow (some frags) cache = (none, cache) := by
  have hmain : ∀ fr : List Fragment, f ∈ fr → processFragments now fr = none := by
    intro fr
    induction fr with
    | nil => intro hmem; cases hmem
    | cons g rest ih =>
      intro hmem
      simp only [processFragments]
      by_cases h1 : g.ts > maxInt64
      · rw [if_pos h1]
      rw [if_neg h1]
      by_cases h2 : g.id > maxInt64
      · rw [if_pos h2]
      rw [if_neg h2]
      rcases List.mem_cons.mp hmem with rfl | hmem'
      · rw [ha]
      · rw [ih hmem']
        cases parseAge g.ageText <;> rfl
  refine ⟨hmain frags hf, ?_⟩
  simp only [fetchFrontPageTimesInner, hmain frags hf]

/-- C4 witness fragment: its age phrase "soon" does not match the
relative-age pattern. -/
def ex4Frag : Fragment := ⟨100, 7, "soon"⟩

/-- C4 witness statement: one malformed fragment aborts the batch and
leaves the (empty) cache untouched. -/
theorem processFragments_fail_closed_witness :
    processFragments 0 [ex4Frag] = none ∧
      fetchFrontPageTimesInner 0 0 (some [ex4Frag]) none = (none, none) :=
  processFragments_fail_closed 0 0 none [ex4Frag] ex4Frag (by decide) (by decide)

/-- C2 counterexample items: a stale root `ex2A`, a stale middle child
`ex2B`, and a fresh grandchild `ex2C`. -/
def ex2A : Item := ⟨1, "ann", 100, none, false, false⟩

/-- C2 counterexample middle child. -/
def ex2B : Item := ⟨2, "ben", 100, some 1, false, false⟩

/-- C2 counterexample fresh grandchild. -/
def ex2C : Item := ⟨3, "cam", 900, some 2, false, false⟩

/-- C2 counterexample grouping: `ex2B` under `ex2A`, `ex2C` under
`ex2B`. -/
def ex2G : Graph := [(1, [ex2B]), (2, [ex2C])]

/-- C2 counterexample cutoff: only `ex2C` is fresh. -/
def ex2ActiveAfter : Int := 500 * nsPerSecond

/-- C2 counterexample: the grandchild `ex2C` is a transitive descendant of
`ex2A` with `SELF` set (the whole-subtree probe reports it), yet
`findActiveChild` on `ex2A` is `false` — the code's probe is limited to
direct children, refuting the claim that `CHILD` covers descendants at any
depth. -/
theorem findActiveChild_not_transitive_cex :
    ex2B ∈ graphLookup ex2G ex2A.id ∧ ex2C ∈ graphLookup ex2G ex2B.id ∧
      selfMark ex2C ex2ActiveAfter = true ∧
      hasActiveDescendant 2 ex2A ex2G ex2ActiveAfter = true ∧
      findActiveChild ex2A ex2G ex2ActiveAfter = false := by
  decide

/-- C2 amended: for every node in a classified tree, the `CHILD` mark
(`findActiveChild`) is set if and only if some DIRECT child of that node
has `SELF` set; deeper descendants are not probed. -/
theorem findActiveChild_iff_direct_child_active (item : Item) (g : Graph)
    (activeAfterNs : Int) :
    findActiveChild item g activeAfterNs = true ↔
      ∃ c ∈ graphLookup g item.id, selfMark c activeAfterNs = true := by
  simp [findActiveChild, selfMark, List.any_eq_true]

/-- C3 counterexample formatting collaborator. -/
def ex3Fmt : Item → String := fun _ => "title"

/-- C3 counterexample root: created at 9900, inside the activity window
that opens at 9700. -/
def ex3A : Item := ⟨1, "alice", 9900, none, false, false⟩

/-- C3 counterexample activity cutoff. -/
def ex3ActiveAfter : Int := 9700 * nsPerSecond

/-- C3 counterexample request time. -/
def ex3Now : Int := 10000 * nsPerSecond

/-- C3 counterexample: the root `ex3A` has `SELF` set (its own time is
within the activity window), yet its response row reports
`Active = false`, because `handleActive` overwrites the root's mark with
`ActiveMapChild` instead of OR-ing it in — the forced renderability DOES
erase the root's computed mark, refuting the claim. -/
theorem handleActive_root_active_erased_cex :
    selfMark ex3A ex3ActiveAfter = true ∧
      (handleActiveModel ex3Fmt 1 (some []) [ex3A] [] ex3ActiveAfter ex3Now 0 1).Items.map
        ResponseItem.Active = [false] := by
  decide

/-- C3 amended: the designated root of a traversal is always rendered with
populated display text (its forced mark is nonzero, so its `Text` is the
formatted title) regardless of its own activity mark, but the forcing
overwrites the root's computed mark with `CHILD`, erasing its `SELF` bit:
the root's response row always reports `Active = false`, even when the
root's own time is within the activity window. -/
theorem handleActive_root_forced_render (fmt : Item → String) (fuel : Nat)
    (root : HandleActiveRoot) (g : Graph) (activeAfterNs nowNs : Int) (user : Int) :
    (buildRootItems fmt fuel root g activeAfterNs nowNs user).head? =
      some { By := if user = 1 then root.item.By else ""
             Text := fmt root.item
             AgeNs := nowNs - unixToNs root.time
             ID := root.item.id
             Depth := 0
             Active := false
             SecondChance := decide (root.item.time ≠ root.time) } := by
  cases fuel <;>
    simp [buildRootItems, flattenTree, List.lookup, activeMapChild, activeMapSelf]

/-- Helper: a `filterMap` whose function is a guarded `some` is the mapped
filter. -/
theorem filterMap_guard_eq_filter_map (p : Item → Bool) (f : Item → HandleActiveRoot)
    (l : List Item) :
    (l.filterMap fun i => if p i then some (f i) else none) = (l.filter p).map f := by
  induction l with
  | nil => rfl
  | cons a l ih =>
    by_cases h : p a <;> simp [List.filterMap_cons, List.filter_cons, h, ih]

/-- C5: when the front-page resolver fails, the request is not fatal — the
handler still produces a response, the kept roots are computed from each
item's own creation time (the mapping is treated as empty), and the
response carries `SecondChanceFailed = true`. -/
theorem frontpage_failure_degraded (fmt : Item → String) (fuel : Nat) (items : List Item)
    (g : Graph) (activeAfterNs nowNs agedAfterNs : Int) (user : Int) :
    (handleActiveModel fmt fuel none items g activeAfterNs nowNs agedAfterNs
        user).SecondChanceFailed = true ∧
      (getActiveRoots none items agedAfterNs).1 =
        (items.filter fun i => decide (unixToNs i.time > agedAfterNs)).map
          fun i => ⟨i, i.time⟩ := by
  constructor
  · rfl
  · simp only [getActiveRoots, Option.getD_none, Option.isNone_none, List.lookup_nil]
    rw [← filterMap_guard_eq_filter_map (fun i => decide (unixToNs i.time > agedAfterNs))
      (fun i => ⟨i, i.time⟩) items]
    simp

/-- C6 tie-break example root with id 100. -/
def ex6A : Item := ⟨100, "x", 50, none, false, false⟩

/-- C6 tie-break example root with id 200, same creation time. -/
def ex6B : Item := ⟨200, "y", 50, none, false, false⟩

/-- Helper: the `sort.Slice` comparator induces this total order on kept
roots: `a` may precede `b` iff `a`'s effective time is later, or the times
tie and `a`'s id is at least `b`'s. -/
theorem rootLe_iff (a b : HandleActiveRoot) :
    RootLe a b ↔ (a.time > b.time ∨ (a.time = b.time ∧ b.item.id ≤ a.item.id)) := by
  unfold RootLe rootLess
  split <;> rename_i h <;> simp only [beq_iff_eq] at h <;>
    simp only [decide_eq_false_iff_not, not_lt] <;> omega

instance : IsTotal HandleActiveRoot RootLe :=
  ⟨fun a b => by rw [rootLe_iff, rootLe_iff]; omega⟩

instance : IsTrans HandleActiveRoot RootLe :=
  ⟨fun a b c hab hbc => by
    rw [rootLe_iff] at hab hbc ⊢
    omega⟩

/-- C6: the sequence of kept roots returned by root selection is sorted by
effective time descending, ties broken by item id descending; in
particular two candidates with identical effective time and ids 100 and
200 come out in the order [200, 100]. -/
theorem getActiveRootsV2_sorted :
    (∀ (fetchResult : Option (List (Nat × Int))) (items : List Item) (agedAfterNs : Int),
        (getActiveRootsV2 fetchResult items agedAfterNs).Pairwise fun a b =>
          a.time > b.time ∨ (a.time = b.time ∧ b.item.id ≤ a.item.id)) ∧
      (getActiveRootsV2 (some []) [ex6A, ex6B] 0).map (fun r => r.item.id) = [200, 100] := by
  constructor
  · intro fetchResult items agedAfterNs
    unfold getActiveRootsV2
    exact (List.sorted_insertionSort RootLe _).imp fun h => (rootLe_iff _ _).mp h
  · decide

/-- C7 witness item. -/
def ex7Item : Item := ⟨5, "eve", 100, none, false, false⟩

/-- C7: for every candidate root, the effective time is the front-page
mapping's entry for its id when present (else its own creation time), and
the candidate is kept iff that effective time is strictly after
`agedAfter`: every candidate passing the cutoff appears with exactly that
effective time, and every kept root arose that way. -/
theorem getActiveRoots_effective_and_keep (fpt : List (Nat × Int)) (items : List Item)
    (agedAfterNs : Int) (item : Item) (r : HandleActiveRoot)
    (hitem : item ∈ items) (hr : r ∈ (getActiveRoots (some fpt) items agedAfterNs).1) :
    (unixToNs ((fpt.lookup item.id).getD item.time) > agedAfterNs →
        (⟨item, (fpt.lookup item.id).getD item.time⟩ : HandleActiveRoot) ∈
          (getActiveRoots (some fpt) items agedAfterNs).1) ∧
      (r.item ∈ items ∧ r.time = (fpt.lookup r.item.id).getD r.item.time ∧
        unixToNs r.time > agedAfterNs) := by
  constructor
  · intro h
    simp only [getActiveRoots, Option.getD_some]
    exact List.mem_filterMap.mpr ⟨item, hitem, by rw [if_pos h]⟩
  · simp only [getActiveRoots, Option.getD_some] at hr
    obtain ⟨x, hx, hfx⟩ := List.mem_filterMap.mp hr
    by_cases h : unixToNs ((fpt.lookup x.id).getD x.time) > agedAfterNs
    · rw [if_pos h] at hfx
      injection hfx with hfx
      subst hfx
      exact ⟨hx, rfl, h⟩
    · rw [if_neg h] at hfx
      cases hfx

/-- C7 witness statement: with mapping `[(5, 700)]`, item 5's effective
time is 700 (not its own 100), it is kept against `agedAfter = 0`, and the
kept root `⟨ex7Item, 700⟩` decomposes as the theorem states. -/
theorem getActiveRoots_effective_and_keep_witness :
    (unixToNs (([((5 : Nat), (700 : Int))].lookup ex7Item.id).getD ex7Item.time) > 0 →
        (⟨ex7Item, ([((5 : Nat), (700 : Int))].lookup ex7Item.id).getD ex7Item.time⟩ :
            HandleActiveRoot) ∈
          (getActiveRoots (some [((5 : Nat), (700 : Int))]) [ex7Item] 0).1) ∧
      ((⟨ex7Item, 700⟩ : HandleActiveRoot).item ∈ [ex7Item] ∧
        (⟨ex7Item, 700⟩ : HandleActiveRoot).time =
          ([((5 : Nat), (700 : Int))].lookup
              (⟨ex7Item, 700⟩ : HandleActiveRoot).item.id).getD
            (⟨ex7Item, 700⟩ : HandleActiveRoot).item.time ∧
        unixToNs (⟨ex7Item, 700⟩ : HandleActiveRoot).time > 0) :=
  getActiveRoots_effective_and_keep [((5 : Nat), (700 : Int))] [ex7Item] 0 ex7Item
    ⟨ex7Item, 700⟩ (by decide) (by decide)

/-- C8: the resolver returns the shared cached mapping verbatim — for any
fetch outcome whatsoever, so no fetch influences the result — whenever the
entry was stored less than a minute before the call; and whenever the
resolver fails, the cache state is exactly what it was before the call
(nothing is stored on failure). -/
theorem fetchFrontPageTimes_fresh_and_fail (now sysNow : Int) (e : FetchCacheEntry)
    (fetched : Option (List Fragment)) (cache : Option FetchCacheEntry)
    (hfresh : sysNow - e.ts < minuteNs) :
    fetchFrontPageTimes now sysNow fetched (some e) = (some e.data, some e) ∧
      ((fetchFrontPageTimes now sysNow fetched cache).1 = none →
        (fetchFrontPageTimes now sysNow fetched cache).2 = cache) := by
  have hinner : ∀ c : Option FetchCacheEntry,
      (fetchFrontPageTimesInner now sysNow fetched c).1 = none →
      (fetchFrontPageTimesInner now sysNow fetched c).2 = c := by
    intro c h
    cases fetched with
    | none => rfl
    | some frags =>
      cases hp : processFragments now frags with
      | none => simp [fetchFrontPageTimesInner, hp]
      | some m => simp [fetchFrontPageTimesInner, hp] at h
  constructor
  · simp [fetchFrontPageTimes, hfresh]
  · intro h
    cases cache with
    | none => exact hinner none h
    | some e' =>
      by_cases hf : sysNow - e'.ts < minuteNs
      · simp only [fetchFrontPageTimes, if_pos hf] at h
        cases h
      · simp only [fetchFrontPageTimes, if_neg hf] at h ⊢
        exact hinner (some e') h

/-- C8 witness cache entry. -/
def ex8Entry : FetchCacheEntry := ⟨[((9 : Nat), (9 : Int))], 0⟩

/-- C8 witness statement: a cache entry stored at time 0 queried at time 0
(zero seconds old, within the minute) is returned verbatim even though the
fetch outcome is a failure, and the failing resolver leaves the cache
untouched. -/
theorem fetchFrontPageTimes_fresh_and_fail_witness :
    fetchFrontPageTimes 0 0 none (some ex8Entry) = (some ex8Entry.data, some ex8Entry) ∧
      ((fetchFrontPageTimes 0 0 none (some ex8Entry)).1 = none →
        (fetchFrontPageTimes 0 0 none (some ex8Entry)).2 = some ex8Entry) :=
  fetchFrontPageTimes_fresh_and_fail 0 0 ex8Entry none (some ex8Entry) (by decide)

/-- C10: author suppression at the public interface — in both the
`/active` response and the `/item/:id/tree` response, the `By` column is
the underlying item's author handle when the parsed `user` query parameter
is 1 (its default for an absent parameter), and the empty string for every
item when `user` is any other integer. -/
theorem user_param_controls_by (fmt : Item → String) (fuel : Nat)
    (fetchResult : Option (List (Nat × Int))) (items : List Item) (g : Graph)
    (activeAfterNs nowNs agedAfterNs : Int) (item0 : Item) (user : Int) :
    (handleActiveModel fmt fuel fetchResult items g activeAfterNs nowNs agedAfterNs
          user).Items.map ResponseItem.By =
      ((getActiveRoots fetchResult items agedAfterNs).1.map fun r =>
          (flattenTree fuel r.item g 0).map fun p =>
            if user = 1 then p.1.By else "").flatten ∧
      (handleItemDescendantsModel fmt fuel item0 g user).map DescItem.By =
        (flattenTree fuel item0 g 0).map fun p => if user = 1 then p.1.By else "" := by
  constructor
  · simp only [handleActiveModel, buildRootItems, List.map_flatten, List.map_map]
    congr 1
    apply List.map_congr_left
    intro r _
    simp only [Function.comp_apply, List.map_map]
    rfl
  · simp only [handleItemDescendantsModel, List.map_map]
    rfl
